import Mathlib

/-!
Verification of `modelurl/utils.py` (django-model-url): the classes that
replace URLs with macro tokens.  Pure parts (the dictionary replacer, the
alternation scanner, the silent-mode decorator, the render interception and
`object_from_view`) are embedded as executable Lean functions; external
collaborators (`urlsplit`, the URL router, `local_response`, the macro-token
recogniser) are parameters of the embedding, supplied through an environment
record, with shapes taken from their interfaces.
-/

set_option maxHeartbeats 1000000

namespace ModelUrl

/-- Per-character ASCII lower-casing, modelling Python `str.lower()` as used on
URL keys, schemes and authorities throughout `utils.py`. -/
def lowerStr (s : String) : String := ⟨s.data.map Char.toLower⟩

/-- The kinds of `ReplaceException` declared in `utils.py`:
`DoesNotFoundException`, `AlreadyMacroException`, `NoPathException`,
`ForeignException`. -/
inductive RErr
  | doesNotFound
  | alreadyMacro
  | noPath
  | foreign
deriving DecidableEq

/-- Errors that may escape a replacer call: a `ReplaceException` kind, the
router's `Resolver404` raised by `RegexURLResolver.resolve` (a Django
exception, not a `ReplaceException`), or any other collaborator exception. -/
inductive Err
  | replace (e : RErr)
  | resolver404
  | external (s : String)
deriving DecidableEq

/-- The `silentmethod` decorator (utils.py:81-93): call `func` on `value`;
a raised `ReplaceException` is swallowed (the original `value` is returned)
when `silent` is set and re-raised otherwise; every other exception
propagates unconditionally. -/
def silentmethod (silent : Bool) (value : String) (func : String → Except Err String) : Except Err String :=
  match func value with
  | .ok r => .ok r
  | .error (.replace e) => if silent then .ok value else .error (.replace e)
  | .error e => .error e

/-- Association-list lookup, modelling Python `dict[key]` for a dict whose
entries are kept in insertion order with distinct keys. -/
def dictGet : List (String × String) → String → Option String
  | [], _ => none
  | (k, v) :: rest, key => if key = k then some v else dictGet rest key

/-- Association-list store, modelling Python `dict[key] = value`: an existing
entry is overwritten in place, a fresh key is appended. -/
def dictSet (d : List (String × String)) (key v : String) : List (String × String) :=
  if d.any (fun p => p.1 == key) then
    d.map (fun p => if p.1 = key then (key, v) else p)
  else d ++ [(key, v)]

/-- `ReplaceByDict.get_dict` (utils.py:135-140): the source mapping re-keyed
by the lower-cased URL, built by storing the entries one by one into a fresh
dict.  The source dict is modelled as its association list in iteration
order. -/
def get_dict (source : List (String × String)) : List (String × String) :=
  source.foldl (fun d kv => dictSet d (lowerStr kv.1) kv.2) []

/-- Lexicographic strict comparison of character lists by code point,
modelling Python 2's bytewise string comparison used by `list.sort`. -/
def ltChars : List Char → List Char → Bool
  | [], [] => false
  | [], _ :: _ => true
  | _ :: _, [] => false
  | a :: as, b :: bs =>
    if a.toNat < b.toNat then true
    else if b.toNat < a.toNat then false
    else ltChars as bs

/-- Strict string order: lexicographic by code point. -/
def strLt (s t : String) : Prop := ltChars s.data t.data = true

instance : DecidableRel strLt := fun s t => by
  unfold strLt
  infer_instance

/-- Non-strict string order: lexicographic by code point. -/
def strLe (s t : String) : Prop := strLt s t ∨ s = t

theorem ltChars_trans :
    ∀ (a b c : List Char), ltChars a b = true → ltChars b c = true →
      ltChars a c = true := by
  intro a
  induction a with
  | nil =>
    intro b c hab hbc
    cases b with
    | nil => exact hbc
    | cons x xs =>
      cases c with
      | nil => simp [ltChars] at hbc
      | cons y ys => rfl
  | cons p ps ih =>
    intro b c hab hbc
    cases b with
    | nil => simp [ltChars] at hab
    | cons x xs =>
      cases c with
      | nil => simp [ltChars] at hbc
      | cons y ys =>
        simp only [ltChars] at hab hbc ⊢
        by_cases h1 : p.toNat < x.toNat
        · by_cases h2 : x.toNat < y.toNat
          · rw [if_pos (Nat.lt_trans h1 h2)]
          · rw [if_neg h2] at hbc
            by_cases h3 : y.toNat < x.toNat
            · rw [if_pos h3] at hbc
              cases hbc
            · have hxy : x.toNat = y.toNat :=
                Nat.le_antisymm (Nat.le_of_not_lt h3) (Nat.le_of_not_lt h2)
              rw [if_pos (hxy ▸ h1)]
        · by_cases h2 : x.toNat < p.toNat
          · rw [if_neg h1, if_pos h2] at hab
            cases hab
          · have hpx : p.toNat = x.toNat :=
              Nat.le_antisymm (Nat.le_of_not_lt h2) (Nat.le_of_not_lt h1)
            rw [if_neg h1, if_neg h2] at hab
            by_cases h3 : x.toNat < y.toNat
            · rw [if_pos (hpx ▸ h3)]
            · by_cases h4 : y.toNat < x.toNat
              · rw [if_neg h3, if_pos h4] at hbc
                cases hbc
              · rw [if_neg h3, if_neg h4] at hbc
                have hxy : x.toNat = y.toNat :=
                  Nat.le_antisymm (Nat.le_of_not_lt h4) (Nat.le_of_not_lt h3)
                rw [if_neg (by rw [hpx, hxy]; exact Nat.lt_irrefl _),
                  if_neg (by rw [hpx, hxy]; exact Nat.lt_irrefl _)]
                exact ih xs ys hab hbc

theorem ltChars_connect :
    ∀ (a b : List Char), ltChars a b = false → ltChars b a = false → a = b := by
  intro a
  induction a with
  | nil =>
    intro b hab _
    cases b with
    | nil => rfl
    | cons x xs => simp [ltChars] at hab
  | cons p ps ih =>
    intro b hab hba
    cases b with
    | nil => simp [ltChars] at hba
    | cons x xs =>
      simp only [ltChars] at hab hba
      by_cases h1 : p.toNat < x.toNat
      · rw [if_pos h1] at hab
        cases hab
      · by_cases h2 : x.toNat < p.toNat
        · rw [if_pos h2] at hba
          cases hba
        · have hpx : p = x := Char.ext (UInt32.toNat.inj
            (Nat.le_antisymm (Nat.le_of_not_lt h2) (Nat.le_of_not_lt h1)))
          rw [if_neg h1, if_neg h2] at hab
          rw [if_neg h2, if_neg h1] at hba
          rw [hpx, ih xs hab hba]

theorem strLt_trans {s t u : String} (h1 : strLt s t) (h2 : strLt t u) : strLt s u :=
  ltChars_trans s.data t.data u.data h1 h2

theorem strLt_connect (s t : String) (h1 : ¬ strLt s t) (h2 : ¬ strLt t s) : s = t := by
  have e1 : ltChars s.data t.data = false := by
    cases hb : ltChars s.data t.data
    · rfl
    · exact absurd hb h1
  have e2 : ltChars t.data s.data = false := by
    cases hb : ltChars t.data s.data
    · rfl
    · exact absurd hb h2
  have hdata := ltChars_connect s.data t.data e1 e2
  cases s
  cases t
  exact congrArg String.mk hdata

/-- Python's descending tuple comparison used by `self.list.sort(reverse=True)`
in `ReplaceByDict.get_list` (utils.py:148): `pairGe a b` holds when the pair
`a` sorts at or before `b` in descending lexicographic order of
`(key, value)`. -/
def pairGe (a b : String × String) : Prop :=
  strLt b.1 a.1 ∨ (b.1 = a.1 ∧ (strLt b.2 a.2 ∨ b.2 = a.2))

instance : DecidableRel pairGe := fun a b => by
  unfold pairGe
  infer_instance

instance : IsTrans (String × String) pairGe := by
  constructor
  intro a b c hab hbc
  rcases hab with h1 | ⟨h1, h1v⟩ <;> rcases hbc with h2 | ⟨h2, h2v⟩
  · exact Or.inl (strLt_trans h2 h1)
  · exact Or.inl (h2 ▸ h1)
  · exact Or.inl (h1 ▸ h2)
  · refine Or.inr ⟨h2.trans h1, ?_⟩
    rcases h1v with h1v | h1v <;> rcases h2v with h2v | h2v
    · exact Or.inl (strLt_trans h2v h1v)
    · exact Or.inl (h2v ▸ h1v)
    · exact Or.inl (h1v ▸ h2v)
    · exact Or.inr (h2v.trans h1v)

instance : IsTotal (String × String) pairGe := by
  constructor
  intro a b
  by_cases h1 : strLt a.1 b.1
  · exact Or.inr (Or.inl h1)
  · by_cases h2 : strLt b.1 a.1
    · exact Or.inl (Or.inl h2)
    · have h : a.1 = b.1 := strLt_connect a.1 b.1 h1 h2
      by_cases hv1 : strLt a.2 b.2
      · exact Or.inr (Or.inr ⟨h, Or.inl hv1⟩)
      · by_cases hv2 : strLt b.2 a.2
        · exact Or.inl (Or.inr ⟨h.symm, Or.inl hv2⟩)
        · exact Or.inl (Or.inr ⟨h.symm, Or.inr (strLt_connect b.2 a.2 hv2 hv1)⟩)

/-- `ReplaceByDict.get_list` (utils.py:142-149): the entries of `get_dict`
as a list sorted with `sort(reverse=True)`, i.e. in descending lexicographic
order of the `(key, value)` tuples (keys are distinct, so effectively of the
keys). -/
def get_list (source : List (String × String)) : List (String × String) :=
  (get_dict source).insertionSort pairGe

/-- Case-insensitive literal prefix match: does the escaped literal `key`
match the text at this position under `re.IGNORECASE`?  Both sides are
compared lower-cased, which is how `re.IGNORECASE` matches a literal. -/
def ciPrefix : List Char → List Char → Bool
  | [], _ => true
  | _ :: _, [] => false
  | k :: ks, c :: cs => (k.toLower == c.toLower) && ciPrefix ks cs

/-- One left-to-right pass of `self.get_regexp().sub(replace, value)`
(utils.py:151-158 and 170-179), with `fuel` a structural bound that is kept
at or above the length of the remaining text: at each position the first
alternative of the alternation (in `get_list` order) that matches wins, the
associated value is substituted — `replace` returns `get_list()[index][1]`
for the first non-`None` group — and scanning resumes after the match
(matches do not overlap). -/
def subFuel (l : List (String × String)) : Nat → List Char → List Char
  | _, [] => []
  | 0, _ :: _ => []
  | fuel + 1, c :: cs =>
    match l.find? (fun p => ciPrefix p.1.data (c :: cs)) with
    | none => c :: subFuel l fuel cs
    | some (k, v) =>
      if k.data.length = 0 then v.data ++ c :: subFuel l fuel cs
      else v.data ++ subFuel l fuel (List.drop (k.data.length - 1) cs)

/-- The character-level substitution of `ReplaceByDict.text`, run with enough
fuel for the whole text. -/
def subChars (l : List (String × String)) (cs : List Char) : List Char :=
  subFuel l cs.length cs

/-- `ReplaceByDict.text` (utils.py:170-179): substitute every non-overlapping
match of the compiled alternation by the macro of the alternative that
matched. -/
def ReplaceByDict.text (source : List (String × String)) (value : String) : String :=
  ⟨subChars (get_list source) value.data⟩

/-- The body of `ReplaceByDict.url` before the `silentmethod` wrapper
(utils.py:160-168): look the lower-cased value up in `get_dict`; a missing
key (`KeyError`) becomes `DoesNotFoundException`. -/
def ReplaceByDict.urlBody (source : List (String × String)) (value : String) : Except Err String :=
  match dictGet (get_dict source) (lowerStr value) with
  | some m => .ok m
  | none => .error (.replace .doesNotFound)

/-- `ReplaceByDict.url` (utils.py:160-168): `urlBody` under `silentmethod`. -/
def ReplaceByDict.url (source : List (String × String)) (silent : Bool) (value : String) : Except Err String :=
  silentmethod silent value (ReplaceByDict.urlBody source)

/-- A URL decomposed by the `urlsplit` collaborator into
scheme, authority, path, query and fragment (empty string = component
absent, matching Python's truthiness tests on the components). -/
structure UrlParts where
  scheme : String
  authority : String
  path : String
  query : String
  fragment : String

/-- A content object as seen by this module: its qualified class name and its
`id`/`pk` (the only attributes `utils.py` reads). -/
structure Obj where
  cls : String
  id : Nat
deriving DecidableEq

/-- The thread-local rendezvous state `local` (utils.py:182-199): presence of
the attributes `modelurl_object_name` (the pending request) and
`modelurl_object` (the captured response) is modelled by `Option`. -/
structure Slot where
  object_name : Option String
  object : Option Obj
deriving DecidableEq

/-- One render pass intercepted by the patched `Template.render`: the context
mapping (looked up by variable name) and the output the original render
function would produce for this pass. -/
structure RenderPass where
  context : String → Option Obj
  output : String

/-- The result of the `local_response` collaborator: an HTTP status code and
the render passes the handler performs, in order, while the response is
produced. -/
structure LocalResponse where
  status : Nat
  passes : List RenderPass

/-- The `render` wrapper installed over `Template.render` (utils.py:184-199):
if an object is already captured for this thread, skip rendering and return
the empty string; else, if a variable name was requested, try to read it from
the context (a missing key is silently skipped); finally run the original
render. -/
def render (s : Slot) (ctx : String → Option Obj) (out : String) : Slot × String :=
  if s.object.isSome then (s, "")
  else
    match s.object_name with
    | none => (s, out)
    | some name =>
      match ctx name with
      | some v => ({ s with object := some v }, out)
      | none => (s, out)

/-- Run the sequence of render passes triggered by one `local_response` call,
threading the thread-local slot and collecting each pass's output. -/
def runRenders (s : Slot) : List RenderPass → Slot × List String
  | [] => (s, [])
  | p :: ps =>
    let r := render s p.context p.output
    let rest := runRenders r.1 ps
    (rest.1, r.2 :: rest.2)

/-- `object_from_view` (utils.py:210-219): in a fresh thread-local state
(`@threadmethod()` runs the body on a new thread), record the requested
variable name, perform the single `local_response(path, query)` call (whose
render passes are intercepted), fail with `DoesNotFoundException` if the
status is not 200 or if no object was captured, else return the captured
object.  The collaborator is modelled as indexed by invocation number so that
"invoked exactly once" is expressible: the body only ever consults
invocation `0`. -/
def object_from_view (lr : Nat → String → String → Except String LocalResponse)
    (path query object_name : String) : Except Err Obj :=
  match lr 0 path query with
  | .error e => .error (.external e)
  | .ok resp =>
    let s1 := (runRenders { object_name := some object_name, object := none } resp.passes).1
    if resp.status ≠ 200 then .error (.replace .doesNotFound)
    else
      match s1.object with
      | some o => .ok o
      | none => .error (.replace .doesNotFound)

/-- Modelled from the spec: `modelurl.generate_macro` is called at
utils.py:262 but lives outside `utils.py`; per §4.1, MacroCodec's encode
produces `"{@ " + typeQualifiedName + " " + identifier + " @}"`. -/
def generateMacro (cls : String) (id : Nat) : String :=
  "\x7b@ " ++ cls ++ " " ++ toString id ++ " @\x7d"

/-- Modelled from the spec: `urljoin` comes from the external `urlmethods`
package; per §4.5 step 6 it recomposes a URL from the five components,
keeping the query and fragment (introduced by `?` and `#`) and omitting the
absent (`None`) scheme and authority. -/
def urljoin (scheme authority : Option String) (path query fragment : String) : String :=
  (match scheme with
   | some s => s ++ ":"
   | none => "") ++
  (match authority with
   | some a => "//" ++ a
   | none => "") ++
  path ++
  (if query = "" then "" else "?" ++ query) ++
  (if fragment = "" then "" else "#" ++ fragment)

/-- `ReplaceByView.SERVER_SCHEMES` (utils.py:227). -/
def SERVER_SCHEMES : List String := ["http"]

/-- The state of a `ReplaceByView` instance (utils.py:229-239): the
handler-identity → variable-name registry (`self.views`, keyed by the
imported view callables, modelled by handler identity strings), the permitted
site authorities (`self.sites`), and the `send_query` flag. -/
structure ViewConf where
  views : List (String × String)
  sites : List String
  send_query : Bool

/-- The external collaborators consumed by `ReplaceByView.url`:
the macro-token recogniser `MACRO_RE.match`, `urlsplit`, the router
(`RegexURLResolver.resolve`, returning a handler identity or raising
`Resolver404`), and `local_response` (indexed by invocation number, see
`object_from_view`). -/
structure ViewEnv where
  isMacro : String → Bool
  urlsplit : String → UrlParts
  resolve : String → Except Unit String
  local_response : Nat → String → String → Except String LocalResponse

/-- The body of `ReplaceByView.url` before the `silentmethod` wrapper
(utils.py:241-264): reject an input that is already a macro token; split the
URL and reject one with no scheme, authority and path; reject a foreign
scheme or authority (the URL side lower-cased, the configured lists taken
verbatim); resolve the *whole input string* with the router (a router error
propagates); look the handler up in `self.views` (`KeyError` becomes
`DoesNotFoundException`); obtain the object via `object_from_view` with the
path and, only when `send_query` is set, the query; finally rebuild the value
from the macro token, the original query and the fragment. -/
def ReplaceByView.urlBody (cfg : ViewConf) (env : ViewEnv) (value : String) : Except Err String :=
  if env.isMacro value then .error (.replace .alreadyMacro)
  else
    let p := env.urlsplit value
    if p.scheme = "" ∧ p.authority = "" ∧ p.path = "" then .error (.replace .noPath)
    else if (p.scheme ≠ "" ∧ lowerStr p.scheme ∉ SERVER_SCHEMES)
        ∨ (p.authority ≠ "" ∧ lowerStr p.authority ∉ cfg.sites) then
      .error (.replace .foreign)
    else
      match env.resolve value with
      | .error _ => .error .resolver404
      | .ok callback =>
        match dictGet cfg.views callback with
        | none => .error (.replace .doesNotFound)
        | some object_name =>
          match object_from_view env.local_response p.path
              (if cfg.send_query then p.query else "") object_name with
          | .error e => .error e
          | .ok obj => .ok (urljoin none none (generateMacro obj.cls obj.id) p.query p.fragment)

/-- `ReplaceByView.url` (utils.py:241-264): `urlBody` under `silentmethod`. -/
def ReplaceByView.url (cfg : ViewConf) (env : ViewEnv) (silent : Bool) (value : String) : Except Err String :=
  silentmethod silent value (ReplaceByView.urlBody cfg env)

/-- A happy-path environment: every URL splits into a bare path, the router
maps `/objects/1` to handler identity `handlerA`, and the handler's single
render pass exposes the variable `obj` bound to a `pkg.Thing` with id 1. -/
def happyEnv : ViewEnv where
  isMacro := fun _ => false
  urlsplit := fun s => ⟨"", "", s, "", ""⟩
  resolve := fun s => if s = "/objects/1" then .ok "handlerA" else .error ()
  local_response := fun _ p _ =>
    if p = "/objects/1" then
      .ok ⟨200, [⟨fun n => if n = "obj" then some ⟨"pkg.Thing", 1⟩ else none, "rendered"⟩]⟩
    else .error "no such path"

/-- The registry and sites for the happy-path environment. -/
def happyCfg : ViewConf where
  views := [("handlerA", "obj")]
  sites := []
  send_query := false

/-- An environment whose input splits into scheme `http` and authority
`example.com`, for exercising the site check. -/
def mixedCaseSiteEnv : ViewEnv where
  isMacro := fun _ => false
  urlsplit := fun _ => ⟨"http", "example.com", "/x", "", ""⟩
  resolve := fun _ => .error ()
  local_response := fun _ _ _ => .error "unused"

/-- A configuration whose permitted-site set spells the domain with capital
letters. -/
def mixedCaseSiteCfg : ViewConf where
  views := []
  sites := ["Example.COM"]
  send_query := false

/-- An environment where the router resolves the bare path `/objects/1` but
nothing else — in particular not a full URL carrying scheme and authority —
while the site check permits `good.example`. -/
def fullUrlEnv : ViewEnv where
  isMacro := fun _ => false
  urlsplit := fun s =>
    if s = "http://good.example/objects/1" then ⟨"http", "good.example", "/objects/1", "", ""⟩
    else ⟨"", "", s, "", ""⟩
  resolve := fun s => if s = "/objects/1" then .ok "handlerA" else .error ()
  local_response := fun _ p _ =>
    if p = "/objects/1" then
      .ok ⟨200, [⟨fun n => if n = "obj" then some ⟨"pkg.Thing", 1⟩ else none, "rendered"⟩]⟩
    else .error "no such path"

/-- The registry and sites for `fullUrlEnv`. -/
def fullUrlCfg : ViewConf where
  views := [("handlerA", "obj")]
  sites := ["good.example"]
  send_query := false

/-- An environment whose token recogniser accepts exactly the token
`{@ models.Page 1 @}`. -/
def macroInputEnv : ViewEnv where
  isMacro := fun s => s = "\x7b@ models.Page 1 @\x7d"
  urlsplit := fun s => ⟨"", "", s, "", ""⟩
  resolve := fun _ => .error ()
  local_response := fun _ _ _ => .error "unused"

/-- An environment whose `urlsplit` reports every component empty (an input
that is only an anchor or query). -/
def emptySplitEnv : ViewEnv where
  isMacro := fun _ => false
  urlsplit := fun _ => ⟨"", "", "", "", ""⟩
  resolve := fun _ => .error ()
  local_response := fun _ _ _ => .error "unused"

/-- An environment whose input splits into the non-HTTP scheme `mailto`. -/
def mailtoEnv : ViewEnv where
  isMacro := fun _ => false
  urlsplit := fun _ => ⟨"mailto", "", "a@b.com", "", ""⟩
  resolve := fun _ => .error ()
  local_response := fun _ _ _ => .error "unused"

/-- No pair of `l` matches at any position of `cs` (position `cs.length` is
the empty suffix): the compiled alternation finds nothing to substitute. -/
def noMatchAt (l : List (String × String)) (cs : List Char) : Prop :=
  ∀ i, i ≤ cs.length → l.find? (fun p => ciPrefix p.1.data (List.drop i cs)) = none

instance (l : List (String × String)) (cs : List Char) : Decidable (noMatchAt l cs) := by
  unfold noMatchAt
  infer_instance

/-- `find?` returns the element at the first index whose predicate holds. -/
theorem find_eq_of_first {α : Type} (p : α → Bool) :
    ∀ (l : List α) (j : Nat) (x : α), l.get? j = some x → p x = true →
      (∀ i y, i < j → l.get? i = some y → p y = false) → l.find? p = some x := by
  intro l
  induction l with
  | nil => intro j x hj; cases hj
  | cons a t ih =>
    intro j x hj hx hbefore
    cases j with
    | zero =>
      cases hj
      rw [List.find?_cons_of_pos _ hx]
    | succ j' =>
      have ha : p a = false := hbefore 0 a (Nat.succ_pos j') rfl
      rw [List.find?_cons_of_neg _ (by simp [ha])]
      exact ih j' x hj hx (fun i y hi hy => hbefore (i + 1) y (Nat.succ_lt_succ hi) hy)

/-- `subFuel` does not depend on the fuel once it covers the text length. -/
theorem subFuel_congr (l : List (String × String)) :
    ∀ (f f' : Nat) (cs : List Char), cs.length ≤ f → cs.length ≤ f' →
      subFuel l f cs = subFuel l f' cs := by
  intro f
  induction f with
  | zero =>
    intro f' cs h _
    have hnil : cs = [] := List.length_eq_zero.mp (Nat.le_zero.mp h)
    subst hnil
    cases f' <;> rfl
  | succ f ih =>
    intro f' cs h h'
    cases cs with
    | nil => cases f' <;> rfl
    | cons c cs' =>
      cases f' with
      | zero => simp at h'
      | succ f'' =>
        have hl : cs'.length ≤ f := by simpa using h
        have hl' : cs'.length ≤ f'' := by simpa using h'
        simp only [subFuel]
        cases hf : l.find? (fun p => ciPrefix p.1.data (c :: cs')) with
        | none => rw [ih f'' cs' hl hl']
        | some kv =>
          obtain ⟨k, v⟩ := kv
          have hd : (List.drop (k.data.length - 1) cs').length ≤ cs'.length := by
            rw [List.length_drop]
            exact Nat.sub_le _ _
          show (if k.data.length = 0 then v.data ++ c :: subFuel l f cs'
              else v.data ++ subFuel l f (List.drop (k.data.length - 1) cs')) =
            (if k.data.length = 0 then v.data ++ c :: subFuel l f'' cs'
              else v.data ++ subFuel l f'' (List.drop (k.data.length - 1) cs'))
          rw [ih f'' cs' hl hl',
            ih f'' (List.drop (k.data.length - 1) cs') (le_trans hd hl) (le_trans hd hl')]

/-- One step of the scanning pass: at a non-empty text, the first alternative
that matches is substituted and scanning resumes after the match; with no
match the character is copied. -/
theorem subChars_cons (l : List (String × String)) (c : Char) (cs : List Char) :
    subChars l (c :: cs) =
      match l.find? (fun p => ciPrefix p.1.data (c :: cs)) with
      | none => c :: subChars l cs
      | some (k, v) =>
        if k.data.length = 0 then v.data ++ c :: subChars l cs
        else v.data ++ subChars l (List.drop (k.data.length - 1) cs) := by
  show subFuel l (cs.length + 1) (c :: cs) = _
  simp only [subFuel]
  cases hf : l.find? (fun p => ciPrefix p.1.data (c :: cs)) with
  | none => rfl
  | some kv =>
    obtain ⟨k, v⟩ := kv
    have hd : (List.drop (k.data.length - 1) cs).length ≤ cs.length := by
      rw [List.length_drop]
      exact Nat.sub_le _ _
    show (if k.data.length = 0 then v.data ++ c :: subFuel l cs.length cs
        else v.data ++ subFuel l cs.length (List.drop (k.data.length - 1) cs)) =
      (if k.data.length = 0 then v.data ++ c :: subChars l cs
        else v.data ++ subChars l (List.drop (k.data.length - 1) cs))
    rw [subFuel_congr l cs.length (List.drop (k.data.length - 1) cs).length
      (List.drop (k.data.length - 1) cs) hd (le_refl _)]
    rfl

/-- A text in which the alternation matches nowhere is copied verbatim. -/
theorem subChars_id_of_noMatchAt (l : List (String × String)) :
    ∀ (cs : List Char), noMatchAt l cs → subChars l cs = cs := by
  intro cs
  induction cs with
  | nil => intro _; rfl
  | cons c cs' ih =>
    intro h
    have h0 : l.find? (fun p => ciPrefix p.1.data (c :: cs')) = none := by
      have := h 0 (Nat.zero_le _)
      simpa using this
    rw [subChars_cons, h0]
    rw [ih (fun i hi => by
      have := h (i + 1) (Nat.succ_le_succ hi)
      simpa using this)]

/-- Every element of `dictSet d key v` was in `d` or carries the stored key. -/
theorem mem_dictSet (d : List (String × String)) (key v : String) (p : String × String)
    (hp : p ∈ dictSet d key v) : p ∈ d ∨ p.1 = key := by
  unfold dictSet at hp
  by_cases h : d.any (fun q => q.1 == key)
  · rw [if_pos h] at hp
    obtain ⟨q, hq, hqe⟩ := List.mem_map.mp hp
    by_cases hqk : q.1 = key
    · rw [if_pos hqk] at hqe
      right
      rw [← hqe]
    · rw [if_neg hqk] at hqe
      left
      rwa [hqe] at hq
  · rw [if_neg h] at hp
    rcases List.mem_append.mp hp with h1 | h1
    · exact Or.inl h1
    · right
      have : p = (key, v) := by simpa using h1
      rw [this]

/-- Every key of `get_dict` is the lower-casing of some source key. -/
theorem mem_foldl_dictSet (source : List (String × String)) :
    ∀ (d : List (String × String)) (p : String × String),
      p ∈ source.foldl (fun d kv => dictSet d (lowerStr kv.1) kv.2) d →
      p ∈ d ∨ ∃ kv ∈ source, p.1 = lowerStr kv.1 := by
  induction source with
  | nil =>
    intro d p hp
    exact Or.inl hp
  | cons kv rest ih =>
    intro d p hp
    rcases ih (dictSet d (lowerStr kv.1) kv.2) p hp with h | ⟨kv', hkv', he⟩
    · rcases mem_dictSet _ _ _ _ h with h1 | h1
      · exact Or.inl h1
      · exact Or.inr ⟨kv, List.mem_cons_self _ _, h1⟩
    · exact Or.inr ⟨kv', List.mem_cons_of_mem _ hkv', he⟩

/-- Lookup misses when the key differs from every stored key. -/
theorem dictGet_eq_none (key : String) :
    ∀ (d : List (String × String)), (∀ p ∈ d, key ≠ p.1) → dictGet d key = none := by
  intro d
  induction d with
  | nil => intro _; rfl
  | cons q rest ih =>
    intro h
    obtain ⟨k, v⟩ := q
    unfold dictGet
    rw [if_neg (h (k, v) (List.mem_cons_self _ _))]
    exact ih (fun p hp => h p (List.mem_cons_of_mem _ hp))

/-- When the lower-cased source keys are pairwise distinct, `get_dict` is the
source list with each key lower-cased (every store appends a fresh key). -/
theorem foldl_dictSet_eq_append :
    ∀ (source d : List (String × String)),
      (∀ kv ∈ source, ∀ p ∈ d, p.1 ≠ lowerStr kv.1) →
      (source.map (fun kv => lowerStr kv.1)).Nodup →
      source.foldl (fun d kv => dictSet d (lowerStr kv.1) kv.2) d
        = d ++ source.map (fun kv => (lowerStr kv.1, kv.2)) := by
  intro source
  induction source with
  | nil =>
    intro d _ _
    simp
  | cons kv rest ih =>
    intro d hfresh hnd
    have hnotin : ¬ (d.any (fun q => q.1 == lowerStr kv.1) = true) := by
      simp only [List.any_eq_true, beq_iff_eq]
      rintro ⟨q, hq, hqe⟩
      exact hfresh kv (List.mem_cons_self _ _) q hq hqe
    have hset : dictSet d (lowerStr kv.1) kv.2 = d ++ [(lowerStr kv.1, kv.2)] := by
      unfold dictSet
      rw [if_neg hnotin]
    have hnd' : (rest.map (fun kv => lowerStr kv.1)).Nodup := (List.nodup_cons.mp hnd).2
    have hhead : lowerStr kv.1 ∉ rest.map (fun kv => lowerStr kv.1) := (List.nodup_cons.mp hnd).1
    have hfresh' : ∀ kv' ∈ rest, ∀ p ∈ d ++ [(lowerStr kv.1, kv.2)], p.1 ≠ lowerStr kv'.1 := by
      intro kv' hkv' p hp
      rcases List.mem_append.mp hp with h1 | h1
      · exact hfresh kv' (List.mem_cons_of_mem _ hkv') p h1
      · have hp1 : p = (lowerStr kv.1, kv.2) := by simpa using h1
        rw [hp1]
        show lowerStr kv.1 ≠ lowerStr kv'.1
        intro heq
        apply hhead
        rw [heq]
        exact List.mem_map.mpr ⟨kv', hkv', rfl⟩
    calc (kv :: rest).foldl (fun d kv => dictSet d (lowerStr kv.1) kv.2) d
        = rest.foldl (fun d kv => dictSet d (lowerStr kv.1) kv.2)
            (dictSet d (lowerStr kv.1) kv.2) := rfl
      _ = (d ++ [(lowerStr kv.1, kv.2)]) ++ rest.map (fun kv => (lowerStr kv.1, kv.2)) := by
            rw [hset]
            exact ih (d ++ [(lowerStr kv.1, kv.2)]) hfresh' hnd'
      _ = d ++ (kv :: rest).map (fun kv => (lowerStr kv.1, kv.2)) := by
            simp

/-- `get_dict` under distinct lower-cased keys. -/
theorem get_dict_eq_map (source : List (String × String))
    (hnd : (source.map (fun kv => lowerStr kv.1)).Nodup) :
    get_dict source = source.map (fun kv => (lowerStr kv.1, kv.2)) := by
  have := foldl_dictSet_eq_append source [] (fun kv _ p hp => absurd hp (List.not_mem_nil p)) hnd
  simpa [get_dict] using this

/-- Looking a present key up in the lower-cased mapping finds its value, as
long as the lower-cased keys are pairwise distinct. -/
theorem dictGet_map_of_mem :
    ∀ (source : List (String × String)) (k v value : String),
      (k, v) ∈ source → lowerStr value = lowerStr k →
      (source.map (fun kv => lowerStr kv.1)).Nodup →
      dictGet (source.map (fun kv => (lowerStr kv.1, kv.2))) (lowerStr value) = some v := by
  intro source
  induction source with
  | nil =>
    intro k v value hmem
    cases hmem
  | cons q rest ih =>
    intro k v value hmem hkey hnd
    have hnd' : (rest.map (fun kv => lowerStr kv.1)).Nodup := (List.nodup_cons.mp hnd).2
    have hhead : lowerStr q.1 ∉ rest.map (fun kv => lowerStr kv.1) := (List.nodup_cons.mp hnd).1
    show dictGet ((lowerStr q.1, q.2) :: rest.map (fun kv => (lowerStr kv.1, kv.2))) (lowerStr value) = some v
    unfold dictGet
    by_cases h : lowerStr value = lowerStr q.1
    · rw [if_pos h]
      rcases List.mem_cons.mp hmem with he | hm
      · rw [← he]
      · exfalso
        apply hhead
        rw [← h, hkey]
        exact List.mem_map.mpr ⟨(k, v), hm, rfl⟩
    · rw [if_neg h]
      rcases List.mem_cons.mp hmem with he | hm
      · exfalso
        apply h
        rw [hkey, ← he]
      · exact ih k v value hm hkey hnd'

/-- Indexing into a replicated list within bounds. -/
theorem get_replicate_of_lt (a : String) :
    ∀ (n i : Nat), i < n → (List.replicate n a).get? i = some a := by
  intro n
  induction n with
  | zero =>
    intro i hi
    exact absurd hi (Nat.not_lt_zero i)
  | succ n ih =>
    intro i hi
    cases i with
    | zero => rfl
    | succ i' => exact ih i' (Nat.lt_of_succ_lt_succ hi)

/-- After a capture, every remaining render pass leaves the slot untouched
and produces empty output (utils.py:186-189). -/
theorem runRenders_captured (o : Obj) :
    ∀ (ps : List RenderPass) (s : Slot), s.object = some o →
      (runRenders s ps).1 = s ∧ (runRenders s ps).2 = List.replicate ps.length "" := by
  intro ps
  induction ps with
  | nil =>
    intro s _
    exact ⟨rfl, rfl⟩
  | cons p rest ih =>
    intro s h
    have hr : render s p.context p.output = (s, "") := by
      unfold render
      rw [if_pos (by rw [h]; rfl)]
    obtain ⟨h1, h2⟩ := ih s h
    simp only [runRenders, hr]
    exact ⟨h1, by rw [h2]; rfl⟩

/-- C1: the compiled alternation used by `ReplaceByDict.text` has exactly the
entries of the mapping (`get_list` is a permutation of `get_dict`, one
capture group per entry), ordered in descending lexicographic order of the
raw (non-escaped) key; and whenever some alternative matches at a scan
position (the key at index `j` matches while every earlier alternative
fails), the substituted string is the macro of that earliest-ordered
matching alternative. -/
theorem c1_alternation_order_and_first_match (source : List (String × String)) :
    (get_list source).Perm (get_dict source)
    ∧ (get_list source).Sorted (fun a b => strLe b.1 a.1)
    ∧ ∀ (c : Char) (cs : List Char) (j : Nat) (k v : String),
        (get_list source).get? j = some (k, v) →
        ciPrefix k.data (c :: cs) = true →
        (∀ i p, i < j → (get_list source).get? i = some p →
          ciPrefix p.1.data (c :: cs) = false) →
        k.data ≠ [] →
        subChars (get_list source) (c :: cs)
          = v.data ++ subChars (get_list source) (List.drop (k.data.length - 1) cs) := by
  refine ⟨List.perm_insertionSort pairGe (get_dict source), ?_, ?_⟩
  · apply List.Pairwise.imp ?_ (List.sorted_insertionSort pairGe (get_dict source))
    intro a b hab
    rcases hab with h | ⟨h, _⟩
    · exact Or.inl h
    · exact Or.inr h
  · intro c cs j k v hj hmatch hbefore hk
    have hfind : (get_list source).find? (fun p => ciPrefix p.1.data (c :: cs)) = some (k, v) :=
      find_eq_of_first _ (get_list source) j (k, v) hj hmatch hbefore
    rw [subChars_cons, hfind]
    show (if k.data.length = 0 then v.data ++ c :: subChars (get_list source) cs
        else v.data ++ subChars (get_list source) (List.drop (k.data.length - 1) cs)) = _
    rw [if_neg (fun h0 => hk (List.length_eq_zero.mp h0))]

/-- C1 witness: on the mapping `{/a ↦ MA, /ab ↦ MB}` the alternation is
`[(/ab, MB), (/a, MA)]`; at the text `/aX` the first alternative `/ab` fails,
the second `/a` matches, and `MA` is substituted. -/
theorem c1_witness :
    subChars (get_list [("/a", "MA"), ("/ab", "MB")]) ('/' :: 'a' :: 'X' :: [])
      = "MA".data
        ++ subChars (get_list [("/a", "MA"), ("/ab", "MB")])
          (List.drop ("/a".data.length - 1) ('a' :: 'X' :: [])) := by
  refine (c1_alternation_order_and_first_match [("/a", "MA"), ("/ab", "MB")]).2.2
    '/' ('a' :: 'X' :: []) 1 "/a" "MA" (by decide) (by decide) ?_ (by decide)
  intro i p hi hp
  have hi0 : i = 0 := Nat.lt_one_iff.mp hi
  subst hi0
  have hv : (get_list [("/a", "MA"), ("/ab", "MB")]).get? 0 = some ("/ab", "MB") := by decide
  rw [hv] at hp
  cases hp
  decide

/-- C8 counterexample: `rewriteText` is not idempotent for every mapping and
text.  With the mapping `{a ↦ {@ aa @}}` the first pass turns `a` into
`{@ aa @}`; the substituted macro token itself contains the key `a`, so a
second pass rewrites it again and the output changes. -/
theorem c8_counterexample :
    ReplaceByDict.text [("a", "\x7b@ aa @\x7d")]
        (ReplaceByDict.text [("a", "\x7b@ aa @\x7d")] "a")
      ≠ ReplaceByDict.text [("a", "\x7b@ aa @\x7d")] "a" := by
  decide

/-- C8 amended: re-applying `ReplaceByDict.text` to its own output returns
the output unchanged provided no alternative of the compiled alternation
matches anywhere in that output (the spec's "once no further known URLs
remain in the output"); macro tokens are inert exactly when no mapping key
occurs inside them. -/
theorem c8_amended_idempotent (source : List (String × String)) (v : String)
    (h : noMatchAt (get_list source) (ReplaceByDict.text source v).data) :
    ReplaceByDict.text source (ReplaceByDict.text source v)
      = ReplaceByDict.text source v :=
  congrArg String.mk (subChars_id_of_noMatchAt (get_list source) _ h)

/-- C8 witness: with the mapping `{/a ↦ {@ m.P 1 @}}` and the text `x /a y`,
the key does not occur in the rewritten output, so a second pass leaves it
unchanged. -/
theorem c8_witness :
    ReplaceByDict.text [("/a", "\x7b@ m.P 1 @\x7d")]
        (ReplaceByDict.text [("/a", "\x7b@ m.P 1 @\x7d")] "x /a y")
      = ReplaceByDict.text [("/a", "\x7b@ m.P 1 @\x7d")] "x /a y" :=
  c8_amended_idempotent [("/a", "\x7b@ m.P 1 @\x7d")] "x /a y" (by decide)

/-- C3: both public `resolveUrl` entry points (`ReplaceByDict.url` and
`ReplaceByView.url`) apply the silent-mode policy uniformly: when the body
raises any `ReplaceException`, silent mode returns the original input
verbatim and non-silent mode propagates exactly that exception. -/
theorem c3_silent_policy (source : List (String × String)) (cfg : ViewConf)
    (env : ViewEnv) (value : String) (e : RErr) :
    (ReplaceByDict.urlBody source value = .error (.replace e) →
      ReplaceByDict.url source true value = .ok value
      ∧ ReplaceByDict.url source false value = .error (.replace e))
    ∧ (ReplaceByView.urlBody cfg env value = .error (.replace e) →
      ReplaceByView.url cfg env true value = .ok value
      ∧ ReplaceByView.url cfg env false value = .error (.replace e)) := by
  constructor
  · intro h
    constructor
    · simp [ReplaceByDict.url, silentmethod, h]
    · simp [ReplaceByDict.url, silentmethod, h]
  · intro h
    constructor
    · simp [ReplaceByView.url, silentmethod, h]
    · simp [ReplaceByView.url, silentmethod, h]

/-- C3 witness: on the empty mapping the dictionary body raises
`DoesNotFoundException`; silent mode returns `/x` verbatim and non-silent
mode propagates the exception. -/
theorem c3_witness :
    ReplaceByDict.url [] true "/x" = .ok "/x"
    ∧ ReplaceByDict.url [] false "/x" = .error (.replace .doesNotFound) :=
  (c3_silent_policy [] happyCfg happyEnv "/x" .doesNotFound).1 rfl

/-- C9: silent mode suppresses only `ReplaceException` failures: an error of
any other class escaping the body of `ReplaceByView.url` (the router's
`Resolver404`, a collaborator exception) propagates to the caller even with
silent mode on, instead of the original input being returned. -/
theorem c9_nonreplace_propagates (cfg : ViewConf) (env : ViewEnv)
    (value : String) (e : Err) (he : ∀ r, e ≠ .replace r)
    (h : ReplaceByView.urlBody cfg env value = .error e) :
    ReplaceByView.url cfg env true value = .error e := by
  unfold ReplaceByView.url silentmethod
  rw [h]
  cases e with
  | replace r => exact absurd rfl (he r)
  | resolver404 => rfl
  | external s => rfl

/-- C9 witness: in the happy-path environment the router raises `Resolver404`
on `/zzz`; with silent mode on, the error still escapes. -/
theorem c9_witness :
    ReplaceByView.url happyCfg happyEnv true "/zzz" = .error .resolver404 :=
  c9_nonreplace_propagates happyCfg happyEnv "/zzz" .resolver404
    (fun _ h => Err.noConfusion h) rfl

/-- C4: a URL whose lower-casing coincides with the lower-casing of a mapping
key resolves to exactly that key's macro (for a mapping whose lower-cased
keys are distinct, as in the spec's case-normalized data model); a URL
matching no key fails with `DoesNotFoundException` when not silent and is
returned unchanged when silent. -/
theorem c4_dict_url (source : List (String × String)) (value k v : String)
    (silent : Bool) :
    ((k, v) ∈ source → lowerStr value = lowerStr k →
      (source.map (fun kv => lowerStr kv.1)).Nodup →
      ReplaceByDict.url source silent value = .ok v)
    ∧ ((∀ kv ∈ source, lowerStr value ≠ lowerStr kv.1) →
      ReplaceByDict.url source false value = .error (.replace .doesNotFound)
      ∧ ReplaceByDict.url source true value = .ok value) := by
  constructor
  · intro hmem hkey hnd
    have hget : dictGet (get_dict source) (lowerStr value) = some v := by
      rw [get_dict_eq_map source hnd]
      exact dictGet_map_of_mem source k v value hmem hkey hnd
    simp [ReplaceByDict.url, ReplaceByDict.urlBody, silentmethod, hget]
  · intro habs
    have hget : dictGet (get_dict source) (lowerStr value) = none := by
      apply dictGet_eq_none
      intro p hp
      rcases mem_foldl_dictSet source [] p hp with h0 | ⟨kv, hkv, he⟩
      · exact absurd h0 (List.not_mem_nil p)
      · rw [he]
        exact habs kv hkv
    constructor
    · simp [ReplaceByDict.url, ReplaceByDict.urlBody, silentmethod, hget]
    · simp [ReplaceByDict.url, ReplaceByDict.urlBody, silentmethod, hget]

/-- C4 witness: `/page/1` matches the differently-cased key `/Page/1` and
returns its macro; the absent `/nope` raises when not silent and passes
through when silent. -/
theorem c4_witness :
    ReplaceByDict.url [("/Page/1", "M1")] false "/page/1" = .ok "M1"
    ∧ ReplaceByDict.url [("/Page/1", "M1")] false "/nope"
        = .error (.replace .doesNotFound)
    ∧ ReplaceByDict.url [("/Page/1", "M1")] true "/nope" = .ok "/nope" := by
  refine ⟨(c4_dict_url [("/Page/1", "M1")] "/page/1" "/Page/1" "M1" false).1
    (by decide) (by decide) (by decide), ?_, ?_⟩
  · exact ((c4_dict_url [("/Page/1", "M1")] "/nope" "k" "m" false).2 (by decide)).1
  · exact ((c4_dict_url [("/Page/1", "M1")] "/nope" "k" "m" true).2 (by decide)).2

/-- C5 counterexample: the site membership test is not case-insensitive on
the configured side.  The authority `example.com` is, up to case, the
configured site `Example.COM`, yet `ReplaceByView.url` classifies the URL as
foreign: only the URL's authority is lower-cased, the permitted site set is
consulted verbatim. -/
theorem c5_counterexample :
    lowerStr (mixedCaseSiteEnv.urlsplit "http://example.com/x").authority
        = lowerStr "Example.COM"
    ∧ "Example.COM" ∈ mixedCaseSiteCfg.sites
    ∧ ReplaceByView.url mixedCaseSiteCfg mixedCaseSiteEnv false "http://example.com/x"
        = .error (.replace .foreign) := by
  refine ⟨by decide, by decide, by rfl⟩

/-- C5 amended: `ReplaceByView.url` validates in this order: `AlreadyMacro`
for an input matched by the token recogniser; else `NoPath` when scheme,
authority and path are all empty; else `Foreign` when a present scheme,
lower-cased, is not among the accepted server schemes, or a present
authority, lower-cased, is not literally a member of the permitted site set
(the configured entries are compared verbatim, not case-insensitively). -/
theorem c5_amended_validation (cfg : ViewConf) (env : ViewEnv) (value : String) :
    (env.isMacro value = true →
      ReplaceByView.url cfg env false value = .error (.replace .alreadyMacro))
    ∧ (env.isMacro value = false →
      ((env.urlsplit value).scheme = "" ∧ (env.urlsplit value).authority = ""
        ∧ (env.urlsplit value).path = "") →
      ReplaceByView.url cfg env false value = .error (.replace .noPath))
    ∧ (env.isMacro value = false →
      ¬((env.urlsplit value).scheme = "" ∧ (env.urlsplit value).authority = ""
        ∧ (env.urlsplit value).path = "") →
      (((env.urlsplit value).scheme ≠ ""
          ∧ lowerStr (env.urlsplit value).scheme ∉ SERVER_SCHEMES)
        ∨ ((env.urlsplit value).authority ≠ ""
          ∧ lowerStr (env.urlsplit value).authority ∉ cfg.sites)) →
      ReplaceByView.url cfg env false value = .error (.replace .foreign)) := by
  refine ⟨?_, ?_, ?_⟩
  · intro h
    simp [ReplaceByView.url, silentmethod, ReplaceByView.urlBody, h]
  · intro h hempty
    simp [ReplaceByView.url, silentmethod, ReplaceByView.urlBody, h, hempty.1,
      hempty.2.1, hempty.2.2]
  · intro h hne hforeign
    simp only [ReplaceByView.url, silentmethod, ReplaceByView.urlBody, h,
      Bool.false_eq_true, if_false, if_neg hne, if_pos hforeign]

/-- C5 witness: an input recognised as a macro token fails `AlreadyMacro`;
an input with all components empty fails `NoPath`; `mailto:a@b.com` under
accepted schemes `{http}` fails `Foreign`. -/
theorem c5_witness :
    ReplaceByView.url happyCfg macroInputEnv false "\x7b@ models.Page 1 @\x7d"
        = .error (.replace .alreadyMacro)
    ∧ ReplaceByView.url happyCfg emptySplitEnv false "#anchor"
        = .error (.replace .noPath)
    ∧ ReplaceByView.url happyCfg mailtoEnv false "mailto:a@b.com"
        = .error (.replace .foreign) :=
  ⟨(c5_amended_validation happyCfg macroInputEnv "\x7b@ models.Page 1 @\x7d").1 (by decide),
   (c5_amended_validation happyCfg emptySplitEnv "#anchor").2.1 rfl ⟨rfl, rfl, rfl⟩,
   (c5_amended_validation happyCfg mailtoEnv "mailto:a@b.com").2.2 rfl (by decide)
     (Or.inl ⟨by decide, by decide⟩)⟩

/-- C6 counterexample: the router is not handed the URL's path component but
the whole input string.  Here the router resolves the path `/objects/1` to a
registered handler, yet the call on the full URL `http://good.example/objects/1`
(which passes validation) fails with the router's error, because
`resolver.resolve` received the full string. -/
theorem c6_counterexample :
    fullUrlEnv.resolve
        ((fullUrlEnv.urlsplit "http://good.example/objects/1").path) = .ok "handlerA"
    ∧ dictGet fullUrlCfg.views "handlerA" = some "obj"
    ∧ ReplaceByView.url fullUrlCfg fullUrlEnv false "http://good.example/objects/1"
        = .error .resolver404 := by
  refine ⟨by rfl, by rfl, by rfl⟩

/-- C6 amended: after validation, the *full original URL string* is resolved
against the external router; when the router raises, its error (`Resolver404`,
a not-found failure that is not a `ReplaceException`) propagates, and when
the resolved handler identity is not a key of the registry the call fails
with `DoesNotFoundException`. -/
theorem c6_amended_resolution (cfg : ViewConf) (env : ViewEnv) (value : String)
    (h1 : env.isMacro value = false)
    (h2 : ¬((env.urlsplit value).scheme = "" ∧ (env.urlsplit value).authority = ""
        ∧ (env.urlsplit value).path = ""))
    (h3 : ¬(((env.urlsplit value).scheme ≠ ""
        ∧ lowerStr (env.urlsplit value).scheme ∉ SERVER_SCHEMES)
      ∨ ((env.urlsplit value).authority ≠ ""
        ∧ lowerStr (env.urlsplit value).authority ∉ cfg.sites))) :
    (∀ u : Unit, env.resolve value = .error u →
      ReplaceByView.url cfg env false value = .error .resolver404)
    ∧ (∀ cb : String, env.resolve value = .ok cb → dictGet cfg.views cb = none →
      ReplaceByView.url cfg env false value = .error (.replace .doesNotFound)) := by
  constructor
  · intro u hres
    simp [ReplaceByView.url, silentmethod, ReplaceByView.urlBody, h1, h2, h3, hres]
  · intro cb hres hreg
    simp [ReplaceByView.url, silentmethod, ReplaceByView.urlBody, h1, h2, h3, hres, hreg]

/-- C6 witness: in `fullUrlEnv` the router raises on `/badpath` and the error
propagates; with an empty registry the resolved handler of `/objects/1` is
unregistered and the call fails with `DoesNotFoundException`. -/
theorem c6_witness :
    ReplaceByView.url fullUrlCfg fullUrlEnv false "/badpath" = .error .resolver404
    ∧ ReplaceByView.url mixedCaseSiteCfg fullUrlEnv false "/objects/1"
        = .error (.replace .doesNotFound) :=
  ⟨(c6_amended_resolution fullUrlCfg fullUrlEnv "/badpath" rfl (by decide)
      (by decide)).1 () rfl,
   (c6_amended_resolution mixedCaseSiteCfg fullUrlEnv "/objects/1" rfl (by decide)
      (by decide)).2 "handlerA" rfl rfl⟩

/-- C2: when validation, router resolution, registry lookup and object
capture all succeed, `ReplaceByView.url` returns the recomposition in which
the path component is replaced by the macro token encoding the captured
object's type and identifier while the original query and fragment are kept
(the `None` scheme and authority are dropped by `urljoin`). -/
theorem c2_view_happy_path (cfg : ViewConf) (env : ViewEnv) (silent : Bool)
    (value cb object_name : String) (obj : Obj)
    (h1 : env.isMacro value = false)
    (h2 : ¬((env.urlsplit value).scheme = "" ∧ (env.urlsplit value).authority = ""
        ∧ (env.urlsplit value).path = ""))
    (h3 : ¬(((env.urlsplit value).scheme ≠ ""
        ∧ lowerStr (env.urlsplit value).scheme ∉ SERVER_SCHEMES)
      ∨ ((env.urlsplit value).authority ≠ ""
        ∧ lowerStr (env.urlsplit value).authority ∉ cfg.sites)))
    (h4 : env.resolve value = .ok cb)
    (h5 : dictGet cfg.views cb = some object_name)
    (h6 : object_from_view env.local_response (env.urlsplit value).path
        (if cfg.send_query then (env.urlsplit value).query else "") object_name
      = .ok obj) :
    ReplaceByView.url cfg env silent value
      = .ok (urljoin none none (generateMacro obj.cls obj.id)
          (env.urlsplit value).query (env.urlsplit value).fragment) := by
  simp [ReplaceByView.url, silentmethod, ReplaceByView.urlBody,
    h1, h2, h3, h4, h5, h6]

/-- C2 witness: the spec's happy-path example.  The router maps `/objects/1`
to the registered handler declaring variable `obj`; its render pass exposes
an object of type `pkg.Thing` with id 1; `resolveUrl("/objects/1")` returns
`{@ pkg.Thing 1 @}` (query and fragment are empty, so the recomposition is
the bare token). -/
theorem c2_witness :
    ReplaceByView.url happyCfg happyEnv false "/objects/1"
      = .ok "\x7b@ pkg.Thing 1 @\x7d" := by
  have h := c2_view_happy_path happyCfg happyEnv false "/objects/1" "handlerA"
    "obj" ⟨"pkg.Thing", 1⟩ rfl (by decide) (by decide) rfl rfl rfl
  exact h.trans rfl

/-- C7: `object_from_view` fails with `DoesNotFoundException` when the local
request's status is not 200; fails with `DoesNotFoundException` when the call
captured no object into the thread-local slot; returns the captured object
otherwise; and the result depends only on the first invocation of the
`local_response` collaborator — there is no internal retry. -/
theorem c7_object_resolution
    (lr lr' : Nat → String → String → Except String LocalResponse)
    (path query object_name : String) :
    (∀ resp : LocalResponse, lr 0 path query = .ok resp →
      (resp.status ≠ 200 →
        object_from_view lr path query object_name
          = .error (.replace .doesNotFound))
      ∧ (resp.status = 200 →
        (runRenders { object_name := some object_name, object := none }
          resp.passes).1.object = none →
        object_from_view lr path query object_name
          = .error (.replace .doesNotFound))
      ∧ (∀ o : Obj, resp.status = 200 →
        (runRenders { object_name := some object_name, object := none }
          resp.passes).1.object = some o →
        object_from_view lr path query object_name = .ok o))
    ∧ ((∀ p q, lr 0 p q = lr' 0 p q) →
      object_from_view lr path query object_name
        = object_from_view lr' path query object_name) := by
  constructor
  · intro resp hresp
    refine ⟨?_, ?_, ?_⟩
    · intro hst
      simp [object_from_view, hresp, hst]
    · intro hst hcap
      simp [object_from_view, hresp, hst, hcap]
    · intro o hst hcap
      simp [object_from_view, hresp, hst, hcap]
  · intro hagree
    unfold object_from_view
    rw [hagree path query]

/-- C7 witness: a 404 response fails; a 200 response without a render pass
exposing the variable fails; a 200 response whose render pass exposes `obj`
returns the captured object; and changing the collaborator's behaviour on
invocations after the first does not change the result. -/
theorem c7_witness :
    object_from_view (fun _ _ _ => .ok ⟨404, []⟩) "/p" "" "obj"
        = .error (.replace .doesNotFound)
    ∧ object_from_view (fun _ _ _ => .ok ⟨200, []⟩) "/p" "" "obj"
        = .error (.replace .doesNotFound)
    ∧ object_from_view (fun _ _ _ =>
          .ok ⟨200, [⟨fun n => if n = "obj" then some ⟨"pkg.Thing", 1⟩ else none,
            "out"⟩]⟩) "/p" "" "obj"
        = .ok ⟨"pkg.Thing", 1⟩
    ∧ object_from_view (fun i _ _ => if i = 0 then .ok ⟨200, []⟩ else .error "retry")
          "/p" "" "obj"
        = object_from_view (fun _ _ _ => .ok ⟨200, []⟩) "/p" "" "obj" :=
  ⟨((c7_object_resolution (fun _ _ _ => .ok ⟨404, []⟩) (fun _ _ _ => .ok ⟨404, []⟩)
      "/p" "" "obj").1 ⟨404, []⟩ rfl).1 (by decide),
   ((c7_object_resolution (fun _ _ _ => .ok ⟨200, []⟩) (fun _ _ _ => .ok ⟨200, []⟩)
      "/p" "" "obj").1 ⟨200, []⟩ rfl).2.1 rfl rfl,
   ((c7_object_resolution
      (fun _ _ _ => .ok ⟨200, [⟨fun n => if n = "obj" then some ⟨"pkg.Thing", 1⟩
        else none, "out"⟩]⟩)
      (fun _ _ _ => .ok ⟨200, [⟨fun n => if n = "obj" then some ⟨"pkg.Thing", 1⟩
        else none, "out"⟩]⟩)
      "/p" "" "obj").1
      ⟨200, [⟨fun n => if n = "obj" then some ⟨"pkg.Thing", 1⟩ else none, "out"⟩]⟩
      rfl).2.2 ⟨"pkg.Thing", 1⟩ rfl rfl,
   (c7_object_resolution
      (fun i _ _ => if i = 0 then .ok ⟨200, []⟩ else .error "retry")
      (fun _ _ _ => .ok ⟨200, []⟩) "/p" "" "obj").2 (fun _ _ => rfl)⟩

/-- C10: within one `object_from_view` call the captured object is
write-once: starting from a slot holding only the requested variable name,
the first render pass whose context contains that name stores its value, the
final slot still holds exactly that value after all remaining passes, and
every pass after the capturing one returns empty output. -/
theorem c10_capture_write_once (object_name : String) :
    ∀ (passes : List RenderPass) (j : Nat) (pj : RenderPass) (o : Obj),
      passes.get? j = some pj →
      pj.context object_name = some o →
      (∀ i pi, i < j → passes.get? i = some pi → pi.context object_name = none) →
      (runRenders { object_name := some object_name, object := none }
        passes).1.object = some o
      ∧ ∀ k, j < k → k < passes.length →
        (runRenders { object_name := some object_name, object := none }
          passes).2.get? k = some "" := by
  intro passes
  induction passes with
  | nil =>
    intro j pj o hj
    cases hj
  | cons p rest ih =>
    intro j pj o hj hcap hbefore
    cases j with
    | zero =>
      have hp : p = pj := Option.some.inj hj
      have hctx : p.context object_name = some o := hp ▸ hcap
      have hr : render { object_name := some object_name, object := none }
          p.context p.output
          = ({ object_name := some object_name, object := some o }, p.output) := by
        simp [render, hctx]
      obtain ⟨h1, h2⟩ := runRenders_captured o rest
        { object_name := some object_name, object := some o } rfl
      constructor
      · simp only [runRenders, hr]
        rw [h1]
      · intro k hk0 hklen
        simp only [runRenders, hr]
        cases k with
        | zero => exact absurd hk0 (Nat.lt_irrefl 0)
        | succ k' =>
          rw [h2]
          show (List.replicate rest.length "").get? k' = some ""
          exact get_replicate_of_lt "" rest.length k' (by simpa using hklen)
    | succ j' =>
      have hnone : p.context object_name = none :=
        hbefore 0 p (Nat.succ_pos j') rfl
      have hr : render { object_name := some object_name, object := none }
          p.context p.output
          = ({ object_name := some object_name, object := none }, p.output) := by
        simp [render, hnone]
      obtain ⟨h1, h2⟩ := ih j' pj o hj hcap
        (fun i pi hi hpi => hbefore (i + 1) pi (Nat.succ_lt_succ hi) hpi)
      constructor
      · simp only [runRenders, hr]
        exact h1
      · intro k hk hklen
        cases k with
        | zero => exact absurd hk (Nat.not_lt_zero _)
        | succ k' =>
          simp only [runRenders, hr]
          show (runRenders { object_name := some object_name, object := none }
            rest).2.get? k' = some ""
          exact h2 k' (Nat.lt_of_succ_lt_succ hk) (by simpa using hklen)

/-- C10 witness: with three render passes — no `obj` in the first context,
a capture in the second, a different candidate in the third — the final slot
holds the object captured by the second pass and the third pass's output is
empty. -/
theorem c10_witness :
    (runRenders { object_name := some "obj", object := none }
        [⟨fun _ => none, "A"⟩,
         ⟨fun n => if n = "obj" then some ⟨"pkg.Thing", 1⟩ else none, "B"⟩,
         ⟨fun _ => some ⟨"other.Late", 2⟩, "C"⟩]).1.object
      = some ⟨"pkg.Thing", 1⟩
    ∧ (runRenders { object_name := some "obj", object := none }
        [⟨fun _ => none, "A"⟩,
         ⟨fun n => if n = "obj" then some ⟨"pkg.Thing", 1⟩ else none, "B"⟩,
         ⟨fun _ => some ⟨"other.Late", 2⟩, "C"⟩]).2.get? 2
      = some "" := by
  have h := c10_capture_write_once "obj"
    [⟨fun _ => none, "A"⟩,
     ⟨fun n => if n = "obj" then some ⟨"pkg.Thing", 1⟩ else none, "B"⟩,
     ⟨fun _ => some ⟨"other.Late", 2⟩, "C"⟩]
    1 ⟨fun n => if n = "obj" then some ⟨"pkg.Thing", 1⟩ else none, "B"⟩
    ⟨"pkg.Thing", 1⟩ rfl rfl ?_
  · exact ⟨h.1, h.2 2 (by decide) (by decide)⟩
  · intro i pi hi hpi
    have hi0 : i = 0 := Nat.lt_one_iff.mp hi
    subst hi0
    cases hpi
    rfl

end ModelUrl
